import Mathlib

/-!
Verification of the allocation domain model
(`corelib/allocation/domain/model.py`).

The Python module defines an immutable `OrderLine` value object, a mutable
`Batch` entity holding a set of allocated order lines, and a module-level
`allocate(line, batches)` selection policy that sorts the batches by eta
(no-eta first), allocates the line to the first batch that can take it and
returns that batch's reference, raising `OutOfStock` when no batch can.

This file gives a shallow embedding of that code: Python sets become lists
with membership-guarded insertion (the only observations are membership,
insertion, removal and a commutative sum, so the list order is invisible);
mutation becomes explicit state passing; `sorted` becomes a stable
insertion sort over the same comparison the source defines; in-place
mutation of a batch that the caller's list aliases becomes an indexed
update of that list.
-/

open scoped List

/-- Embeds the `OrderLine` dataclass: an immutable value object with
structural equality over all three fields (`orderid`, `sku`, `qty`).
In the source `Sku` and `Quantity` are `int` newtypes and `OrderId` a
`str` newtype. -/
structure OrderLine where
  orderid : String
  sku : Int
  qty : Int
deriving DecidableEq

/-- Embeds the state of a `Batch` instance: the four fields set by
`__init__` plus the `_allocations` set, modelled as a list holding each
member once. -/
structure Batch where
  reference : String
  sku : Int
  eta : Option Int
  purchased_quantity : Int
  allocations : List OrderLine
deriving DecidableEq

/-- Embeds `Batch.__init__`: a fresh batch starts with an empty
allocation set. -/
def Batch.init (ref : String) (sku : Int) (qty : Int) (eta : Option Int) :
    Batch :=
  ⟨ref, sku, eta, qty, []⟩

/-- Embeds Python `set.add`: insert the element unless it is already a
member. -/
def setAdd (s : List OrderLine) (line : OrderLine) : List OrderLine :=
  if line ∈ s then s else line :: s

/-- Embeds the `Batch.allocated_quantity` property:
`sum(line.qty for line in self._allocations)`. -/
def Batch.allocated_quantity (b : Batch) : Int :=
  (b.allocations.map OrderLine.qty).sum

/-- Embeds the `Batch.available_quantity` property:
`self._purchased_quantity - self.allocated_quantity`. -/
def Batch.available_quantity (b : Batch) : Int :=
  b.purchased_quantity - b.allocated_quantity

/-- Embeds `Batch.can_allocate`:
`self.sku == line.sku and line.qty <= self.available_quantity`. -/
def Batch.can_allocate (b : Batch) (line : OrderLine) : Bool :=
  b.sku == line.sku && decide (line.qty ≤ b.available_quantity)

/-- Embeds `Batch.allocate`: add the line to the allocation set when
`can_allocate` holds, otherwise do nothing. -/
def Batch.allocate (b : Batch) (line : OrderLine) : Batch :=
  if b.can_allocate line then
    { b with allocations := setAdd b.allocations line }
  else
    b

/-- Embeds `Batch.deallocate`: remove the line from the allocation set
when it is a member, otherwise do nothing. -/
def Batch.deallocate (b : Batch) (line : OrderLine) : Batch :=
  if line ∈ b.allocations then
    { b with allocations := b.allocations.erase line }
  else
    b

/-- Embeds `Batch.__gt__`: `False` when `self.eta is None`, `True` when
`other.eta is None`, else `self.eta > other.eta`. Dates are embedded as
integers (`date` is totally ordered). -/
def Batch.gtB (self other : Batch) : Bool :=
  match self.eta, other.eta with
  | none, _ => false
  | some _, none => true
  | some e1, some e2 => decide (e2 < e1)

/-- Embeds `Batch.__eq__` (restricted to `Batch` arguments, the typed
case): two batches are equal exactly when their references are equal. -/
def Batch.eqB (self other : Batch) : Bool :=
  other.reference == self.reference

/-- Embeds `Batch.__hash__`: `hash(self.reference)`. The Python string
hash is abstracted as a parameter, since its concrete value is
unspecified; the source only forwards it to the reference field. -/
def Batch.hashB (hash : String → Nat) (self : Batch) : Nat :=
  hash self.reference

/-- Modelled from the spec: the `OutOfStock` exception class lives in
`corelib.exceptions`, outside the provided sources; the spec says it is
an error carrying the offending sku as context, and the source raises it
with the message `f"Out of stock for sku: {line.sku}"`. It is embedded
as a value carrying that message. -/
structure OutOfStock where
  msg : String
deriving DecidableEq

/-- Comparison under which Python sorts batches: `sorted` uses `x < y`,
which for `Batch` (no `__lt__`) resolves to the reflected
`y.__gt__(x)`; a stable ascending sort under that strict order keeps
`a` before `b` exactly when `b < a` fails, that is when
`a.__gt__(b)` is false. -/
def batchLe (a b : Batch) : Prop :=
  Batch.gtB a b = false

instance : DecidableRel batchLe := fun _a _b =>
  inferInstanceAs (Decidable (_ = _))

instance : IsTotal Batch batchLe := ⟨by
  intro a b
  unfold batchLe Batch.gtB
  cases a.eta <;> cases b.eta <;> simp <;> omega⟩

instance : IsTrans Batch batchLe := ⟨by
  intro a b c hab hbc
  unfold batchLe Batch.gtB at *
  cases ha : a.eta <;> cases hb : b.eta <;> cases hc : c.eta <;>
    simp_all <;> omega⟩

/-- Lift of `batchLe` to index-tagged batches; the index models Python
object identity (which position of the caller's list is mutated) and
plays no part in the comparison, exactly as in the source. -/
def pairLe (p q : Nat × Batch) : Prop :=
  batchLe p.2 q.2

instance : DecidableRel pairLe := fun _p _q =>
  inferInstanceAs (Decidable (_ = _))

instance : IsTotal (Nat × Batch) pairLe :=
  ⟨fun a b => IsTotal.total (r := batchLe) a.2 b.2⟩

instance : IsTrans (Nat × Batch) pairLe :=
  ⟨fun a b c hab hbc => IsTrans.trans (r := batchLe) a.2 b.2 c.2 hab hbc⟩

/-- Embeds `sorted(batches)`: Python's sort is stable and ascending for
the comparison described at `batchLe`; the stable ascending sort is
unique for this total preorder, and is realised here by insertion
sort. -/
def sortedBatches (batches : List Batch) : List Batch :=
  List.insertionSort batchLe batches

/-- Embeds the module-level `allocate(line, batches)`. The batches are
tagged with their list position before sorting so that the in-place
mutation of the chosen batch object can be rendered as an update of the
caller's list at that position. Returns the raised `OutOfStock` or the
chosen reference, paired with the caller's list after the call. -/
def allocate (line : OrderLine) (batches : List Batch) :
    Except OutOfStock String × List Batch :=
  match (List.insertionSort pairLe batches.enum).find?
      (fun p => p.2.can_allocate line) with
  | some (i, b) => (Except.ok b.reference, batches.set i (b.allocate line))
  | none =>
      (Except.error ⟨"Out of stock for sku: " ++ toString line.sku⟩, batches)

/-- One public mutating call on a batch: `Batch.allocate` or
`Batch.deallocate`. -/
inductive BatchOp where
  | alloc (line : OrderLine)
  | dealloc (line : OrderLine)

/-- Order line carried by a batch operation. -/
def BatchOp.line : BatchOp → OrderLine
  | .alloc l => l
  | .dealloc l => l

/-- Apply one public mutating call to a batch. -/
def applyOp (b : Batch) : BatchOp → Batch
  | .alloc l => b.allocate l
  | .dealloc l => b.deallocate l

/-- Apply a sequence of public mutating calls to a batch, in order. -/
def applyOps (b : Batch) (ops : List BatchOp) : Batch :=
  ops.foldl applyOp b

/-! ## Helper lemmas -/

theorem gtB_self (b : Batch) : Batch.gtB b b = false := by
  unfold Batch.gtB
  cases b.eta <;> simp

theorem enum_nodup {α : Type _} (l : List α) : l.enum.Nodup :=
  List.Nodup.of_map Prod.fst
    (by rw [List.enum_map_fst]; exact List.nodup_range _)

theorem pair_sublist_of_getElem? {α : Type _} (l : List α) :
    ∀ (i j : Nat) (x y : α), i < j → l[i]? = some x → l[j]? = some y →
      [x, y] <+ l := by
  induction l with
  | nil => intro i j x y _ hx _; simp at hx
  | cons a t ih =>
    intro i j x y hij hx hy
    cases i with
    | zero =>
      simp at hx
      subst hx
      cases j with
      | zero => omega
      | succ jj =>
        have hy' : t[jj]? = some y := by simpa using hy
        exact List.Sublist.cons₂ a
          (List.singleton_sublist.mpr (List.getElem?_mem hy'))
    | succ ii =>
      cases j with
      | zero => omega
      | succ jj =>
        exact (ih ii jj x y (by omega) (by simpa using hx)
          (by simpa using hy)).cons a

theorem mem_left_of_pair_sublist {α : Type _} {x y : α} :
    ∀ (as bs : List α), [x, y] <+ as ++ y :: bs → y ∉ as → y ∉ bs →
      x ∈ as := by
  intro as
  induction as with
  | nil =>
    intro bs h _ hybs
    exfalso
    rw [List.nil_append] at h
    cases h with
    | cons _ h2 => exact hybs (h2.subset (by simp))
    | cons₂ _ h2 => exact hybs (List.singleton_sublist.mp h2)
  | cons a as ih =>
    intro bs h hyas hybs
    cases h with
    | cons _ h2 =>
      exact List.mem_cons_of_mem a
        (ih bs h2 (fun hm => hyas (List.mem_cons_of_mem a hm)) hybs)
    | cons₂ _ _ => exact List.mem_cons_self _ _

theorem available_allocate_nonneg (b : Batch) (line : OrderLine)
    (h : 0 ≤ b.available_quantity) :
    0 ≤ (b.allocate line).available_quantity := by
  by_cases hcan : b.can_allocate line = true
  · have hq : line.qty ≤ b.available_quantity := by
      have h2 := hcan
      simp [Batch.can_allocate] at h2
      exact h2.2
    by_cases hm : line ∈ b.allocations
    · simpa [Batch.allocate, hcan, setAdd, hm, Batch.available_quantity,
        Batch.allocated_quantity] using h
    · have havail : (b.allocate line).available_quantity
          = b.available_quantity - line.qty := by
        simp [Batch.allocate, hcan, setAdd, hm, Batch.available_quantity,
          Batch.allocated_quantity]
        ring
      rw [havail]
      omega
  · have hf : b.can_allocate line = false := by simpa using hcan
    simpa [Batch.allocate, hf] using h

theorem available_deallocate_nonneg (b : Batch) (line : OrderLine)
    (hq : 0 ≤ line.qty) (h : 0 ≤ b.available_quantity) :
    0 ≤ (b.deallocate line).available_quantity := by
  by_cases hm : line ∈ b.allocations
  · have hsum : (b.allocations.map OrderLine.qty).sum
        = line.qty + ((b.allocations.erase line).map OrderLine.qty).sum := by
      have hperm : b.allocations ~ line :: b.allocations.erase line :=
        List.perm_cons_erase hm
      have h3 := (hperm.map OrderLine.qty).sum_eq
      simpa using h3
    have havail : (b.deallocate line).available_quantity
        = b.available_quantity + line.qty := by
      simp [Batch.deallocate, hm, Batch.available_quantity,
        Batch.allocated_quantity]
      omega
    rw [havail]
    omega
  · simpa [Batch.deallocate, hm] using h

theorem applyOps_available_nonneg :
    ∀ (ops : List BatchOp) (b : Batch), (∀ op ∈ ops, 0 < op.line.qty) →
      0 ≤ b.available_quantity → 0 ≤ (applyOps b ops).available_quantity := by
  intro ops
  induction ops with
  | nil => intro b _ h; simpa [applyOps] using h
  | cons op ops ih =>
    intro b hops h
    have hstep : 0 ≤ (applyOp b op).available_quantity := by
      cases op with
      | alloc l => exact available_allocate_nonneg b l h
      | dealloc l =>
        have hp := hops (.dealloc l) (List.mem_cons_self _ _)
        simp [BatchOp.line] at hp
        exact available_deallocate_nonneg b l (le_of_lt hp) h
    have hfold : applyOps b (op :: ops) = applyOps (applyOp b op) ops := rfl
    rw [hfold]
    exact ih (applyOp b op) (fun o ho => hops o (List.mem_cons_of_mem _ ho))
      hstep

/-! ## Claim theorems -/

/-- C4: `Batch.can_allocate(line)` returns true iff the line's sku equals
the batch's sku and the line's quantity is at most the batch's available
quantity (in particular a line whose quantity exactly equals
`available_quantity` is allocatable). The embedded `can_allocate` is a
pure function of the batch: the claim's no-side-effect part is expressed
by the embedding itself, which returns only a `Bool`. -/
theorem can_allocate_iff (b : Batch) (line : OrderLine) :
    b.can_allocate line = true ↔
      line.sku = b.sku ∧ line.qty ≤ b.available_quantity := by
  constructor
  · intro h
    simp [Batch.can_allocate] at h
    exact ⟨h.1.symm, h.2⟩
  · intro h
    simp [Batch.can_allocate]
    exact ⟨h.1.symm, h.2⟩

/-- Witness for C4 at a concrete input: an exact-fit line is
allocatable. -/
theorem can_allocate_iff_witness :
    (Batch.init "batch-001" 1 20 none).can_allocate ⟨"order-1", 1, 20⟩
      = true :=
  (can_allocate_iff (Batch.init "batch-001" 1 20 none)
    ⟨"order-1", 1, 20⟩).mpr (by decide)

/-- C5: `Batch.allocate` never fails: it is a total function that inserts
the line into the allocation set when `can_allocate` holds, and leaves
the batch (allocation set, `allocated_quantity`, `available_quantity` and
all other fields) exactly unchanged when it does not. -/
theorem Batch_allocate_spec (b : Batch) (line : OrderLine) :
    (b.can_allocate line = true →
      (b.allocate line).allocations = setAdd b.allocations line ∧
      (b.allocate line).reference = b.reference ∧
      (b.allocate line).sku = b.sku ∧
      (b.allocate line).eta = b.eta ∧
      (b.allocate line).purchased_quantity = b.purchased_quantity) ∧
    (b.can_allocate line = false → b.allocate line = b) := by
  constructor
  · intro h
    simp [Batch.allocate, h]
  · intro h
    simp [Batch.allocate, h]

/-- Witness for C5: a sku-mismatched line and an oversized line are
silent no-ops on a concrete batch, and an eligible line is inserted. -/
theorem Batch_allocate_spec_witness :
    (Batch.init "b1" 1 10 none).allocate ⟨"o1", 2, 1⟩ = Batch.init "b1" 1 10 none ∧
    (Batch.init "b1" 1 10 none).allocate ⟨"o1", 1, 11⟩ = Batch.init "b1" 1 10 none ∧
    ((Batch.init "b1" 1 10 none).allocate ⟨"o1", 1, 10⟩).allocations
      = setAdd (Batch.init "b1" 1 10 none).allocations ⟨"o1", 1, 10⟩ :=
  ⟨(Batch_allocate_spec (Batch.init "b1" 1 10 none) ⟨"o1", 2, 1⟩).2 (by decide),
   (Batch_allocate_spec (Batch.init "b1" 1 10 none) ⟨"o1", 1, 11⟩).2 (by decide),
   ((Batch_allocate_spec (Batch.init "b1" 1 10 none) ⟨"o1", 1, 10⟩).1
     (by decide)).1⟩

/-- C6: `Batch.allocate` is idempotent: allocating an equal-valued line a
second time leaves the batch exactly as it was after the first call. -/
theorem Batch_allocate_idem (b : Batch) (line : OrderLine) :
    (b.allocate line).allocate line = b.allocate line := by
  by_cases h : b.can_allocate line = true
  · set c := b.allocate line with hc
    have hmem : line ∈ c.allocations := by
      rw [hc]
      simp [Batch.allocate, h, setAdd]
      split
      · assumption
      · exact List.mem_cons_self _ _
    show c.allocate line = c
    unfold Batch.allocate
    split
    · show { c with allocations := setAdd c.allocations line } = c
      simp [setAdd, hmem]
    · rfl
  · have hf : b.can_allocate line = false := by simpa using h
    simp [Batch.allocate, hf]

/-- C3: for a batch constructed with a nonnegative purchased quantity,
after every prefix of any sequence of public `allocate` / `deallocate`
calls whose order lines all have positive quantity, `available_quantity`
is nonnegative. -/
theorem available_quantity_invariant (ref : String) (sku q : Int)
    (eta : Option Int) (hq : 0 ≤ q) (ops : List BatchOp)
    (hops : ∀ op ∈ ops, 0 < op.line.qty) :
    ∀ n : Nat,
      0 ≤ (applyOps (Batch.init ref sku q eta) (ops.take n)).available_quantity := by
  intro n
  apply applyOps_available_nonneg (ops.take n) _
    (fun op ho => hops op (List.mem_of_mem_take ho))
  simpa [Batch.init, Batch.available_quantity, Batch.allocated_quantity]
    using hq

/-- Witness for C3: a concrete allocate / deallocate / allocate sequence
on a fresh batch, checked after every step. -/
theorem available_quantity_invariant_witness :
    0 ≤ (10 : Int) ∧
    ∀ n : Nat,
      0 ≤ (applyOps (Batch.init "b1" 1 10 none)
        (([BatchOp.alloc ⟨"o1", 1, 4⟩, BatchOp.dealloc ⟨"o1", 1, 4⟩,
           BatchOp.alloc ⟨"o2", 1, 10⟩]).take n)).available_quantity :=
  ⟨by decide,
   available_quantity_invariant "b1" 1 10 none (by decide) _ (by decide)⟩

/-- C7 counterexample: the round-trip half of the claim is false as
stated. For a batch that already holds the line, `can_allocate` can
still be true, but `allocate` is then a set no-op while `deallocate`
removes the line, so the pre-allocate state is not restored. -/
theorem deallocate_roundtrip_cex :
    ((⟨"batch-001", 1, none, 10, [⟨"order-1", 1, 2⟩]⟩ : Batch).can_allocate
        ⟨"order-1", 1, 2⟩ = true) ∧
    ¬ (((⟨"batch-001", 1, none, 10, [⟨"order-1", 1, 2⟩]⟩ : Batch).allocate
          ⟨"order-1", 1, 2⟩).deallocate ⟨"order-1", 1, 2⟩).available_quantity
        = (⟨"batch-001", 1, none, 10, [⟨"order-1", 1, 2⟩]⟩ : Batch).available_quantity ∧
    (⟨"order-1", 1, 2⟩ : OrderLine)
        ∈ (⟨"batch-001", 1, none, 10, [⟨"order-1", 1, 2⟩]⟩ : Batch).allocations ∧
    ¬ (⟨"order-1", 1, 2⟩ : OrderLine)
        ∈ (((⟨"batch-001", 1, none, 10, [⟨"order-1", 1, 2⟩]⟩ : Batch).allocate
          ⟨"order-1", 1, 2⟩).deallocate ⟨"order-1", 1, 2⟩).allocations := by
  decide

/-- C7 (amended): `deallocate` removes the line when it is a member and
is an exact no-op otherwise; and for every batch and every eligible line
that is not already allocated to the batch, allocate followed by
deallocate restores the batch exactly (the already-allocated case is
excluded: there allocate is a no-op and deallocate removes the line, as
the counterexample shows). -/
theorem Batch_deallocate_spec (b : Batch) (line : OrderLine) :
    (line ∈ b.allocations →
      (b.deallocate line).allocations = b.allocations.erase line ∧
      (b.deallocate line).purchased_quantity = b.purchased_quantity) ∧
    (line ∉ b.allocations → b.deallocate line = b) ∧
    (b.can_allocate line = true → line ∉ b.allocations →
      (b.allocate line).deallocate line = b) := by
  refine ⟨?_, ?_, ?_⟩
  · intro h
    simp [Batch.deallocate, h]
  · intro h
    simp [Batch.deallocate, h]
  · intro hcan hmem
    have h1 : b.allocate line = { b with allocations := line :: b.allocations } := by
      simp [Batch.allocate, hcan, setAdd, hmem]
    rw [h1]
    simp [Batch.deallocate]

/-- Witness for C7: on a concrete fresh batch, allocate-then-deallocate
restores the batch exactly, and deallocating a non-member is a no-op. -/
theorem Batch_deallocate_spec_witness :
    ((Batch.init "b1" 1 10 none).allocate ⟨"o1", 1, 2⟩).deallocate
        ⟨"o1", 1, 2⟩ = Batch.init "b1" 1 10 none ∧
    (Batch.init "b1" 1 10 none).deallocate ⟨"o1", 1, 2⟩
        = Batch.init "b1" 1 10 none :=
  ⟨(Batch_deallocate_spec (Batch.init "b1" 1 10 none) ⟨"o1", 1, 2⟩).2.2
      (by decide) (by decide),
   (Batch_deallocate_spec (Batch.init "b1" 1 10 none) ⟨"o1", 1, 2⟩).2.1
      (by decide)⟩

/-- C8: batch equality is by reference alone, regardless of all other
fields, and the hash of a batch is the hash of its reference, so two
batches sharing a reference are equal and hash identically for any hash
function on strings. -/
theorem Batch_eq_hash_by_reference (hash : String → Nat) (b1 b2 : Batch) :
    (Batch.eqB b1 b2 = true ↔ b1.reference = b2.reference) ∧
    Batch.hashB hash b1 = hash b1.reference ∧
    (b1.reference = b2.reference →
      Batch.eqB b1 b2 = true ∧ Batch.hashB hash b1 = Batch.hashB hash b2) := by
  refine ⟨?_, rfl, ?_⟩
  · rw [Batch.eqB]
    simp only [beq_iff_eq]
    exact eq_comm
  · intro h
    constructor
    · simp [Batch.eqB, h]
    · simp [Batch.hashB, h]

/-- Witness for C8: two concrete batches sharing a reference but
differing in sku, purchased quantity, eta and allocations are equal and
hash identically (here under the string-length hash). -/
theorem Batch_eq_hash_by_reference_witness :
    Batch.eqB ⟨"REF-1", 1, none, 10, []⟩ ⟨"REF-1", 2, some 5, 99, [⟨"o", 2, 1⟩]⟩
        = true ∧
    Batch.hashB String.length ⟨"REF-1", 1, none, 10, []⟩
        = Batch.hashB String.length ⟨"REF-1", 2, some 5, 99, [⟨"o", 2, 1⟩]⟩ :=
  (Batch_eq_hash_by_reference String.length ⟨"REF-1", 1, none, 10, []⟩
    ⟨"REF-1", 2, some 5, 99, [⟨"o", 2, 1⟩]⟩).2.2 rfl

theorem allocate_succeeds (line : OrderLine) (batches : List Batch)
    (h : ∃ b ∈ batches, b.can_allocate line = true) :
    ∃ i b,
      (List.insertionSort pairLe batches.enum).find?
          (fun p => p.2.can_allocate line) = some (i, b) ∧
      batches[i]? = some b ∧ b.can_allocate line = true ∧
      allocate line batches =
        (Except.ok b.reference, batches.set i (b.allocate line)) := by
  obtain ⟨b0, hmem, hcan⟩ := h
  obtain ⟨i0, hi0⟩ := List.mem_iff_getElem?.mp hmem
  have henum : (i0, b0) ∈ batches.enum :=
    List.mk_mem_enum_iff_getElem?.mpr hi0
  have hsort : (i0, b0) ∈ List.insertionSort pairLe batches.enum :=
    (List.mem_insertionSort pairLe).mpr henum
  cases hfind : (List.insertionSort pairLe batches.enum).find?
      (fun p => p.2.can_allocate line) with
  | none =>
    exact absurd hcan
      (by simpa using List.find?_eq_none.mp hfind (i0, b0) hsort)
  | some p =>
    obtain ⟨i, b⟩ := p
    have hpred : b.can_allocate line = true := by
      simpa using List.find?_some hfind
    have hmem2 : (i, b) ∈ List.insertionSort pairLe batches.enum :=
      List.mem_of_find?_eq_some hfind
    have hget : batches[i]? = some b :=
      List.mk_mem_enum_iff_getElem?.mp ((List.mem_insertionSort pairLe).mp hmem2)
    refine ⟨i, b, rfl, hget, hpred, ?_⟩
    unfold allocate
    rw [hfind]

/-- C1: when at least one batch can allocate the line,
`allocate(line, batches)` picks a batch at some position `i` that can
allocate, inserts the line into that batch's allocation set, returns
that batch's reference, and among all batches that can allocate the
chosen one is first in ascending eta order with no-eta batches first:
it is never greater (by the eta order) than any other eligible batch,
and among order-equivalent eligible batches it has the least input
position. In particular, an eligible eta-`None` batch is preferred over
dated ones, and when the eta-`None` batch has insufficient available
quantity an eligible dated batch is chosen (see the witness). -/
theorem allocate_selects_first (line : OrderLine) (batches : List Batch)
    (h : ∃ b ∈ batches, b.can_allocate line = true) :
    ∃ i b, batches[i]? = some b ∧ b.can_allocate line = true ∧
      line ∈ (b.allocate line).allocations ∧
      allocate line batches =
        (Except.ok b.reference, batches.set i (b.allocate line)) ∧
      ∀ j b', batches[j]? = some b' → b'.can_allocate line = true →
        Batch.gtB b b' = false ∧ (Batch.gtB b' b = false → i ≤ j) := by
  obtain ⟨i, b, hfind, hget, hcan, heq⟩ := allocate_succeeds line batches h
  refine ⟨i, b, hget, hcan, ?_, heq, ?_⟩
  · simp [Batch.allocate, hcan, setAdd]
    split
    · assumption
    · exact List.mem_cons_self _ _
  · intro j b' hj hcan'
    obtain ⟨hpred, as, bs, hsplit, hpre⟩ := List.find?_eq_some.mp hfind
    have henum2 : (j, b') ∈ batches.enum :=
      List.mk_mem_enum_iff_getElem?.mpr hj
    have hsort2 : (j, b') ∈ List.insertionSort pairLe batches.enum :=
      (List.mem_insertionSort pairLe).mpr henum2
    rw [hsplit] at hsort2
    rcases List.mem_append.mp hsort2 with hin | hin
    · have hfail := hpre _ hin
      simp at hfail
      exact absurd hcan' (by simp [hfail])
    · rcases List.mem_cons.mp hin with heq2 | hin
      · have hji : j = i := congrArg Prod.fst heq2
        have hbb : b' = b := congrArg Prod.snd heq2
        rw [hbb, hji]
        exact ⟨gtB_self b, fun _ => le_refl i⟩
      · have hsorted : List.Pairwise pairLe
            (List.insertionSort pairLe batches.enum) :=
          List.sorted_insertionSort pairLe batches.enum
        rw [hsplit] at hsorted
        have hrel : pairLe (i, b) (j, b') :=
          (List.pairwise_cons.mp (List.pairwise_append.mp hsorted).2.1).1
            _ hin
        refine ⟨hrel, ?_⟩
        intro hle2
        by_contra hij
        push_neg at hij
        have hjb : batches.enum[j]? = some (j, b') := by
          rw [List.getElem?_enum, hj]
          rfl
        have hib : batches.enum[i]? = some (i, b) := by
          rw [List.getElem?_enum, hget]
          rfl
        have hsub : [(j, b'), (i, b)] <+ batches.enum :=
          pair_sublist_of_getElem? batches.enum j i (j, b') (i, b) hij hjb hib
        have hsub2 : [(j, b'), (i, b)] <+
            List.insertionSort pairLe batches.enum :=
          List.pair_sublist_insertionSort
            (show pairLe (j, b') (i, b) from hle2) hsub
        rw [hsplit] at hsub2
        have hnd : (as ++ (i, b) :: bs).Nodup := by
          rw [← hsplit]
          exact (List.perm_insertionSort pairLe batches.enum).nodup_iff.mpr
            (enum_nodup batches)
        obtain ⟨hnotin, -⟩ := List.nodup_cons.mp (List.nodup_middle.mp hnd)
        have hxmem : (j, b') ∈ as :=
          mem_left_of_pair_sublist as bs hsub2
            (fun hm => hnotin (List.mem_append.mpr (Or.inl hm)))
            (fun hm => hnotin (List.mem_append.mpr (Or.inr hm)))
        have hfail := hpre _ hxmem
        simp at hfail
        exact absurd hcan' (by simp [hfail])

/-- Witness for C1 at concrete inputs. General part: with an in-stock
batch of quantity 1 and a dated batch of quantity 20, a line of
quantity 2 is allocated by the dated batch (the eta-`None` batch has
insufficient quantity). Extra concrete checks: when the eta-`None`
batch can also allocate, its reference is the one returned, even listed
last; and an earlier eta beats a later one. -/
theorem allocate_selects_first_witness :
    (∃ i b,
      ([Batch.init "instock" 7 1 none, Batch.init "dated" 7 20 (some 5)])[i]?
          = some b ∧
      b.can_allocate ⟨"o1", 7, 2⟩ = true ∧
      (⟨"o1", 7, 2⟩ : OrderLine) ∈ (b.allocate ⟨"o1", 7, 2⟩).allocations ∧
      allocate ⟨"o1", 7, 2⟩
          [Batch.init "instock" 7 1 none, Batch.init "dated" 7 20 (some 5)] =
        (Except.ok b.reference,
          ([Batch.init "instock" 7 1 none,
            Batch.init "dated" 7 20 (some 5)]).set i (b.allocate ⟨"o1", 7, 2⟩)) ∧
      ∀ j b',
        ([Batch.init "instock" 7 1 none,
          Batch.init "dated" 7 20 (some 5)])[j]? = some b' →
        b'.can_allocate ⟨"o1", 7, 2⟩ = true →
        Batch.gtB b b' = false ∧ (Batch.gtB b' b = false → i ≤ j)) ∧
    (allocate ⟨"o1", 7, 2⟩
        [Batch.init "instock" 7 1 none, Batch.init "dated" 7 20 (some 5)]).1
      = Except.ok "dated" ∧
    (allocate ⟨"o1", 7, 2⟩
        [Batch.init "dated" 7 20 (some 5), Batch.init "instock" 7 20 none]).1
      = Except.ok "instock" ∧
    (allocate ⟨"o1", 7, 2⟩
        [Batch.init "later" 7 20 (some 9), Batch.init "sooner" 7 20 (some 5)]).1
      = Except.ok "sooner" :=
  ⟨allocate_selects_first ⟨"o1", 7, 2⟩
      [Batch.init "instock" 7 1 none, Batch.init "dated" 7 20 (some 5)]
      (by decide), rfl, rfl, rfl⟩

/-- C2: `allocate(line, batches)` raises `OutOfStock` (carrying the
line's sku in its message) exactly when no batch in the list can
allocate the line — including the empty list — and in that case no
batch in the input list is mutated: the returned list is exactly the
input list. -/
theorem allocate_out_of_stock (line : OrderLine) (batches : List Batch) :
    ((allocate line batches).1 =
        Except.error ⟨"Out of stock for sku: " ++ toString line.sku⟩ ↔
      ∀ b ∈ batches, b.can_allocate line = false) ∧
    ((∀ b ∈ batches, b.can_allocate line = false) →
      (allocate line batches).2 = batches) := by
  cases hfind : (List.insertionSort pairLe batches.enum).find?
      (fun p => p.2.can_allocate line) with
  | none =>
    have hall : ∀ b ∈ batches, b.can_allocate line = false := by
      intro b hb
      obtain ⟨i0, hi0⟩ := List.mem_iff_getElem?.mp hb
      have hsort : (i0, b) ∈ List.insertionSort pairLe batches.enum :=
        (List.mem_insertionSort pairLe).mpr
          (List.mk_mem_enum_iff_getElem?.mpr hi0)
      have hfail := List.find?_eq_none.mp hfind _ hsort
      simpa using hfail
    have hres : allocate line batches =
        (Except.error ⟨"Out of stock for sku: " ++ toString line.sku⟩,
          batches) := by
      unfold allocate
      rw [hfind]
    refine ⟨⟨fun _ => hall, fun _ => by rw [hres]⟩, fun _ => by rw [hres]⟩
  | some p =>
    obtain ⟨i, b⟩ := p
    have hpred : b.can_allocate line = true := by
      simpa using List.find?_some hfind
    have hmem : b ∈ batches :=
      List.getElem?_mem (List.mk_mem_enum_iff_getElem?.mp
        ((List.mem_insertionSort pairLe).mp
          (List.mem_of_find?_eq_some hfind)))
    have hres : allocate line batches =
        (Except.ok b.reference, batches.set i (b.allocate line)) := by
      unfold allocate
      rw [hfind]
    constructor
    · constructor
      · intro herr
        rw [hres] at herr
        exact absurd herr (by simp)
      · intro hall
        exact absurd hpred (by simp [hall b hmem])
    · intro hall
      exact absurd hpred (by simp [hall b hmem])

/-- Witness for C2: the empty list and a list of a full batch and a
sku-mismatched batch both raise `OutOfStock` with the line's sku in the
message and leave the batch list exactly unchanged. -/
theorem allocate_out_of_stock_witness :
    (allocate ⟨"o1", 1, 2⟩ []).1
        = Except.error ⟨"Out of stock for sku: " ++ toString (1 : Int)⟩ ∧
    (allocate ⟨"o1", 1, 2⟩ []).2 = [] ∧
    (allocate ⟨"o1", 1, 2⟩
        [Batch.init "full" 1 0 none, Batch.init "other" 2 100 none]).1
        = Except.error ⟨"Out of stock for sku: " ++ toString (1 : Int)⟩ ∧
    (allocate ⟨"o1", 1, 2⟩
        [Batch.init "full" 1 0 none, Batch.init "other" 2 100 none]).2
        = [Batch.init "full" 1 0 none, Batch.init "other" 2 100 none] :=
  ⟨(allocate_out_of_stock ⟨"o1", 1, 2⟩ []).1.mpr (by decide),
   (allocate_out_of_stock ⟨"o1", 1, 2⟩ []).2 (by decide),
   (allocate_out_of_stock ⟨"o1", 1, 2⟩
      [Batch.init "full" 1 0 none, Batch.init "other" 2 100 none]).1.mpr
      (by decide),
   (allocate_out_of_stock ⟨"o1", 1, 2⟩
      [Batch.init "full" 1 0 none, Batch.init "other" 2 100 none]).2
      (by decide)⟩

/-- C10: a successful `allocate(line, batches)` mutates at most one
batch: the returned list is the input list with exactly the chosen
position replaced, and at every other position the batch is exactly the
one from the input list. -/
theorem allocate_frame (line : OrderLine) (batches : List Batch)
    (h : ∃ b ∈ batches, b.can_allocate line = true) :
    ∃ i b, batches[i]? = some b ∧
      (allocate line batches).1 = Except.ok b.reference ∧
      (allocate line batches).2 = batches.set i (b.allocate line) ∧
      ∀ j, j ≠ i → (allocate line batches).2[j]? = batches[j]? := by
  obtain ⟨i, b, hfind, hget, hcan, heq⟩ := allocate_succeeds line batches h
  refine ⟨i, b, hget, by rw [heq], by rw [heq], ?_⟩
  intro j hj
  rw [heq]
  exact List.getElem?_set_ne (Ne.symm hj)

/-- Witness for C10: allocating from two batches where the second is
chosen leaves the first batch untouched at its position. -/
theorem allocate_frame_witness :
    ∃ i b,
      ([Batch.init "instock" 7 1 none, Batch.init "dated" 7 20 (some 5)])[i]?
          = some b ∧
      (allocate ⟨"o1", 7, 2⟩
          [Batch.init "instock" 7 1 none,
           Batch.init "dated" 7 20 (some 5)]).1 = Except.ok b.reference ∧
      (allocate ⟨"o1", 7, 2⟩
          [Batch.init "instock" 7 1 none, Batch.init "dated" 7 20 (some 5)]).2
        = ([Batch.init "instock" 7 1 none,
            Batch.init "dated" 7 20 (some 5)]).set i
            (b.allocate ⟨"o1", 7, 2⟩) ∧
      ∀ j, j ≠ i →
        (allocate ⟨"o1", 7, 2⟩
            [Batch.init "instock" 7 1 none,
             Batch.init "dated" 7 20 (some 5)]).2[j]?
          = ([Batch.init "instock" 7 1 none,
              Batch.init "dated" 7 20 (some 5)])[j]? :=
  allocate_frame ⟨"o1", 7, 2⟩
    [Batch.init "instock" 7 1 none, Batch.init "dated" 7 20 (some 5)]
    (by decide)

/-- C9: the ordering used by `allocate` is by eta alone: a no-eta batch
is never greater than any batch (so it sorts before every dated batch),
the sorted list is ascending for that order, the sort is stable (for
every eta key, the batches with that key appear in the sorted output in
exactly their input order), and the index-tagged sort used inside
`allocate` produces exactly the same batch order, so selection among
ties falls to the first such batch in input order. -/
theorem batch_ordering_spec :
    (∀ b other : Batch, b.eta = none → Batch.gtB b other = false) ∧
    (∀ l : List Batch, List.Pairwise batchLe (sortedBatches l)) ∧
    (∀ (l : List Batch) (e : Option Int),
      (sortedBatches l).filter (fun b => b.eta == e) =
        l.filter (fun b => b.eta == e)) ∧
    (∀ l : List Batch,
      (List.insertionSort pairLe l.enum).map Prod.snd = sortedBatches l) := by
  refine ⟨?_, ?_, ?_, ?_⟩
  · intro b other hb
    unfold Batch.gtB
    rw [hb]
  · intro l
    exact List.sorted_insertionSort batchLe l
  · intro l e
    have hpair : (l.filter (fun b => b.eta == e)).Pairwise batchLe := by
      apply List.pairwise_of_forall_mem_list
      intro x hx y hy
      have hxe : x.eta = e := by simpa using (List.mem_filter.mp hx).2
      have hye : y.eta = e := by simpa using (List.mem_filter.mp hy).2
      unfold batchLe Batch.gtB
      rw [hxe, hye]
      cases e <;> simp
    have hsub : l.filter (fun b => b.eta == e) <+ sortedBatches l :=
      List.sublist_insertionSort hpair (List.filter_sublist l)
    have hsub2 : l.filter (fun b => b.eta == e) <+
        (sortedBatches l).filter (fun b => b.eta == e) := by
      have h2 := hsub.filter (fun b => b.eta == e)
      rwa [List.filter_eq_self.mpr
        (fun a ha => (List.mem_filter.mp ha).2)] at h2
    have hlen : (l.filter (fun b => b.eta == e)).length
        = ((sortedBatches l).filter (fun b => b.eta == e)).length := by
      rw [← List.countP_eq_length_filter, ← List.countP_eq_length_filter]
      exact ((List.perm_insertionSort batchLe l).countP_eq _).symm
    exact (hsub2.eq_of_length hlen).symm
  · intro l
    have hmap := List.map_insertionSort (r := pairLe) (s := batchLe)
      Prod.snd l.enum (fun _ _ _ _ => Iff.rfl)
    rw [List.enum_map_snd] at hmap
    exact hmap

/-- Witness for C9: a concrete no-eta batch is not greater than a dated
one, and a concrete sort puts the no-eta batch first and keeps two
equal-eta batches in input order. -/
theorem batch_ordering_spec_witness :
    Batch.gtB (Batch.init "instock" 1 5 none) (Batch.init "dated" 1 5 (some 3))
        = false ∧
    sortedBatches
        [Batch.init "tie-a" 1 5 (some 3), Batch.init "dated" 1 5 (some 1),
         Batch.init "tie-b" 1 5 (some 3), Batch.init "instock" 1 5 none]
      = [Batch.init "instock" 1 5 none, Batch.init "dated" 1 5 (some 1),
         Batch.init "tie-a" 1 5 (some 3), Batch.init "tie-b" 1 5 (some 3)] :=
  ⟨batch_ordering_spec.1 (Batch.init "instock" 1 5 none)
      (Batch.init "dated" 1 5 (some 3)) rfl, rfl⟩
